import Mathlib

/-!
Shallow embedding of `kustomize-upstream` (src/main.rs): the data model
(Config, SplitRule, Matcher, Resource, Package), the classifier
(`Config::classify`), the matcher (`Matcher::do_match`), resource
construction from a parsed manifest (`Resource::from_manifest`), the
zero-pad template filter (`Pad3Fn::filter`), and the driver's
per-document loop from `main` (classification, lazy package creation,
filename/path rendering and appending).  Tera template rendering and the
YAML/HTTP collaborators are external crates; rendering is abstracted as
function parameters, and a parsed manifest is abstracted by the results
of the three `as_str()` field extractions the program performs.
-/

namespace KustomizeUpstream

/-- Mirrors `struct Top` (src/main.rs lines 20-25). -/
structure Top where
  name : String
  version : String
  sourceTemplate : String
  source : Option String
deriving Repr, DecidableEq

/-- Mirrors `struct ResourceSpec` (src/main.rs lines 39-42). -/
structure ResourceSpec where
  pathTemplate : String
  filenameTemplate : String
deriving Repr, DecidableEq

/-- Mirrors `struct DefaultPackageSpec` (src/main.rs lines 29-35). -/
structure DefaultPackageSpec where
  template : String
  defaultName : String
  filenameTemplate : String
  pathTemplate : String
  resourceSpec : ResourceSpec
deriving Repr, DecidableEq

/-- Mirrors `struct Matcher` (src/main.rs lines 53-57): three optional
case-insensitive predicates. -/
structure Matcher where
  kind : Option String
  name : Option String
  «namespace» : Option String
deriving Repr, DecidableEq

/-- Mirrors `struct SplitRule` (src/main.rs lines 46-49). -/
structure SplitRule where
  matcher : Matcher
  packageName : Option String
deriving Repr, DecidableEq

/-- Mirrors `struct Config` (src/main.rs lines 13-17). -/
structure Config where
  Top : Top
  DefaultPackageSpec : DefaultPackageSpec
  SplitRules : List SplitRule
deriving Repr, DecidableEq

/-- Mirrors `struct Resource` (src/main.rs lines 66-73).  `index` is a
`u32` in the source; the driver model tracks it modulo `2 ^ 32`. -/
structure Resource where
  index : Nat
  name : String
  kind : String
  «namespace» : Option String
  filename : Option String
  path : Option String
deriving Repr, DecidableEq

/-- Mirrors `struct Package` (src/main.rs lines 60-63). -/
structure Package where
  name : String
  resources : List Resource
deriving Repr, DecidableEq

/-- Rust `str::to_lowercase`, modelled character-wise (ASCII case
folding) over the string's character list. -/
def lowercase (s : String) : String :=
  String.mk (s.data.map Char.toLower)

/-- Mirrors `Matcher::do_match` (src/main.rs lines 318-337): each set
field must compare equal after `to_lowercase`; the namespace comparison
is between `Option`s, so a set rule namespace never equals an absent
resource namespace. -/
def Matcher.do_match (self : Matcher) (resource : Resource) : Bool :=
  if self.kind ≠ none ∧ self.kind.map lowercase ≠ some (lowercase resource.kind) then
    false
  else if self.name ≠ none ∧ self.name.map lowercase ≠ some (lowercase resource.name) then
    false
  else if self.«namespace» ≠ none ∧
      self.«namespace».map lowercase ≠ resource.«namespace».map lowercase then
    false
  else
    true

/-- Mirrors `Config::classify` (src/main.rs lines 206-215): the `for`
loop with early `return` is the first match of the rule list; when no
rule matches, the default package name is returned. -/
def Config.classify (self : Config) (resource : Resource) : Option String :=
  match self.SplitRules.find? (fun rule => rule.matcher.do_match resource) with
  | some rule => rule.packageName
  | none => some self.DefaultPackageSpec.defaultName

/-- Abstraction of one parsed YAML document after `merge_keys`: the
results of the three `as_str()` extractions `Resource::from_manifest`
performs (`manifest["kind"]`, `manifest["metadata"]["name"]`,
`manifest["metadata"]["namespace"]`). -/
structure ManifestView where
  kind : Option String
  name : Option String
  «namespace» : Option String
deriving Repr, DecidableEq

/-- Outcome of `Resource::from_manifest`: the document is skipped (no
string `kind`, `return None`), the process panics (`.unwrap()` on a
`metadata.name` that is not a string), or a `Resource` is built. -/
inductive FromManifestResult where
  | skipped
  | panicked
  | built (resource : Resource)
deriving Repr, DecidableEq

/-- Mirrors `Resource::from_manifest` (src/main.rs lines 341-361). -/
def Resource.from_manifest (manifest : ManifestView) (idx : Nat) : FromManifestResult :=
  match manifest.kind with
  | none => .skipped
  | some kind =>
    match manifest.name with
    | none => .panicked
    | some name =>
      .built { index := idx, name := name, kind := kind,
               «namespace» := manifest.«namespace», filename := none, path := none }

/-- serde_json number payload as stored by `tera::Value::Number`: an
unsigned 64-bit integer, a negative 64-bit integer, or a finite double
(every finite double is a rational). -/
inductive JNum where
  | posInt (n : Nat)
  | negInt (i : Int)
  | float (q : ℚ)
deriving Repr, DecidableEq

/-- serde_json `Number::as_u64`: `Some` exactly on the unsigned-integer
representation. -/
def JNum.as_u64 : JNum → Option Nat
  | .posInt n => some n
  | .negInt _ => none
  | .float _ => none

/-- The mathematical value of a stored number. -/
def JNum.val : JNum → ℚ
  | .posInt n => (n : ℚ)
  | .negInt i => (i : ℚ)
  | .float q => q

/-- A stored number whose mathematical value is an unsigned 64-bit
integer. -/
def JNum.representableU64 (n : JNum) : Prop :=
  ∃ m : Nat, m < 2 ^ 64 ∧ n.val = (m : ℚ)

/-- `tera::Value` (serde_json values). -/
inductive JValue where
  | null
  | bool (b : Bool)
  | num (n : JNum)
  | str (s : String)
  | arr (xs : List JValue)
  | obj (kvs : List (String × JValue))

/-- Is the value a `Number`? -/
def JValue.isNumber : JValue → Bool
  | .num _ => true
  | _ => false

/-- Rust `format!("\x7b:03\x7d", n)`: decimal, left-padded with zeros to
a minimum width of 3. -/
def format3 (n : Nat) : String :=
  let s := toString n
  if s.length < 3 then String.mk (List.replicate (3 - s.length) '0') ++ s else s

/-- Mirrors `Pad3Fn::filter` (src/main.rs lines 367-383): on a `Number`
whose `as_u64` succeeds, return the zero-padded string; otherwise fail
with "expect number". -/
def pad3Filter : JValue → Except String JValue
  | .num n =>
    match n.as_u64 with
    | some m => .ok (.str (format3 m))
    | none => .error "expect number"
  | _ => .error "expect number"

/-- `u32` modulus for the document counter `idx`. -/
def U32 : Nat := 2 ^ 32

/-- State threaded through the per-document loop of `main`
(src/main.rs lines 126-127): the `u32` counter `idx` and the
`HashMap<String, Package>` accumulator, modelled as an association
list keyed by package name. -/
structure DriverState where
  idx : Nat
  packages : List (String × Package)
deriving Repr, DecidableEq

/-- `HashMap::get` / `get_mut` on the association-list model. -/
def lookupAssoc (packages : List (String × Package)) (name : String) : Option Package :=
  match packages with
  | [] => none
  | (k, v) :: rest => if k = name then some v else lookupAssoc rest name

/-- `HashMap::insert` followed by writing back through `get_mut`:
replace the entry for `name` when present, otherwise add it. -/
def upsertPkg (packages : List (String × Package)) (name : String) (pkg : Package) :
    List (String × Package) :=
  match packages with
  | [] => [(name, pkg)]
  | (k, v) :: rest =>
    if k = name then (k, pkg) :: rest else (k, v) :: upsertPkg rest name pkg

/-- One iteration of the `for manifest in manifests` loop of `main`
(src/main.rs lines 142-191), with the file writes elided and Tera
rendering abstracted by `renderFilename` / `renderPath` (each a
function of the package name and the resource, closed over the
config).  `none` models the process panicking inside
`Resource::from_manifest`. -/
def processDoc (config : Config) (renderFilename renderPath : String → Resource → String)
    (s : DriverState) (manifest : ManifestView) : Option DriverState :=
  match Resource.from_manifest manifest s.idx with
  | .panicked => none
  | .skipped => some { s with idx := (s.idx + 1) % U32 }
  | .built resource =>
    let s1 : DriverState := { s with idx := (s.idx + 1) % U32 }
    match config.classify resource with
    | none => some s1
    | some package_name =>
      let package := (lookupAssoc s1.packages package_name).getD
        { name := package_name, resources := [] }
      let filename := renderFilename package.name resource
      let pathname := renderPath package.name resource
      let resource := { resource with filename := some filename, path := some pathname }
      let package := { package with resources := package.resources ++ [resource] }
      some { s1 with packages := upsertPkg s1.packages package_name package }

/-- The whole per-document loop, over the parsed document stream; `none`
when some iteration panics. -/
def processDocs (config : Config) (renderFilename renderPath : String → Resource → String) :
    DriverState → List ManifestView → Option DriverState
  | s, [] => some s
  | s, d :: ds =>
    match processDoc config renderFilename renderPath s d with
    | none => none
    | some s1 => processDocs config renderFilename renderPath s1 ds

/-- The initial driver state (`idx = 0`, empty accumulator). -/
def initState : DriverState := { idx := 0, packages := [] }

/-- Reference description of the resources assigned to package `q`:
walk the documents in order starting at counter value `i`; a document
that builds a resource classified into `q` contributes that resource
with its rendered filename and path, every other document contributes
nothing. -/
def expectedResources (config : Config)
    (renderFilename renderPath : String → Resource → String) (q : String) :
    List ManifestView → Nat → List Resource
  | [], _ => []
  | d :: ds, i =>
    let rest := expectedResources config renderFilename renderPath q ds (i + 1)
    match Resource.from_manifest d i with
    | .built r =>
      if config.classify r = some q then
        { r with filename := some (renderFilename q r),
                 path := some (renderPath q r) } :: rest
      else rest
    | _ => rest

/-- Forget the rendered output fields of a resource, recovering the
resource as `Resource::from_manifest` built it. -/
def stripRendered (r : Resource) : Resource :=
  { r with filename := none, path := none }

/-- Accumulator well-formedness: every entry's `Package.name` equals its
key.  Holds initially (empty map) and is preserved by the loop, since a
package is created with `name` equal to the `HashMap` key and the name
is never changed. -/
def goodNames (packages : List (String × Package)) : Prop :=
  ∀ p ∈ packages, (p.2).name = p.1

instance (packages : List (String × Package)) : Decidable (goodNames packages) := by
  unfold goodNames; infer_instance

/-- How a run extends the accumulator entry for `q`: absent entries are
created exactly when the first resource arrives, existing entries keep
their name and get the new resources appended. -/
def combinePkg (q : String) : Option Package → List Resource → Option Package
  | none, [] => none
  | none, rs => some { name := q, resources := rs }
  | some pkg, rs => some { pkg with resources := pkg.resources ++ rs }

/-! ### Concrete example inputs (used to instantiate the theorems) -/

/-- A split-rule configuration whose first rule matches ConfigMaps and
drops them (no `packageName`), and whose second rule would match
ConfigMaps into package "p2". -/
def cfgDrop : Config :=
  { Top := { name := "t", version := "v", sourceTemplate := "s", source := none },
    DefaultPackageSpec :=
      { template := "tpl", defaultName := "main", filenameTemplate := "f",
        pathTemplate := "p",
        resourceSpec := { pathTemplate := "rp", filenameTemplate := "rf" } },
    SplitRules :=
      [ { matcher := { kind := some "configmap", name := none, «namespace» := none },
          packageName := none },
        { matcher := { kind := some "configmap", name := none, «namespace» := none },
          packageName := some "p2" } ] }

/-- A configuration with a ConfigMap rule into package "cm" and a
Secret drop rule. -/
def cfgW : Config :=
  { Top := { name := "t", version := "v", sourceTemplate := "s", source := none },
    DefaultPackageSpec :=
      { template := "tpl", defaultName := "main", filenameTemplate := "f",
        pathTemplate := "p",
        resourceSpec := { pathTemplate := "rp", filenameTemplate := "rf" } },
    SplitRules :=
      [ { matcher := { kind := some "configmap", name := none, «namespace» := none },
          packageName := some "cm" },
        { matcher := { kind := some "secret", name := none, «namespace» := none },
          packageName := none } ] }

/-- A concrete ConfigMap resource. -/
def resCM : Resource :=
  { index := 0, name := "x", kind := "ConfigMap", «namespace» := none,
    filename := none, path := none }

/-- Same classification-relevant fields as `resCM2` below, different
index. -/
def resCM1 : Resource :=
  { index := 1, name := "x", kind := "ConfigMap", «namespace» := some "ns",
    filename := none, path := none }

/-- Same classification-relevant fields as `resCM1`, different index
and rendered fields. -/
def resCM2 : Resource :=
  { index := 7, name := "x", kind := "ConfigMap", «namespace» := some "ns",
    filename := some "f", path := some "p" }

/-- Concrete rendering functions standing in for the Tera templates. -/
def rfW : String → Resource → String := fun q r => q ++ "-" ++ toString r.index

/-- Concrete rendering function for paths. -/
def rpW : String → Resource → String := fun q _ => q

/-- Five documents: the second lacks a string `kind` (skipped), the
third is a Secret (dropped by `cfgW`), the rest are classified. -/
def docsW : List ManifestView :=
  [ { kind := some "ConfigMap", name := some "a", «namespace» := none },
    { kind := none, name := some "b", «namespace» := none },
    { kind := some "Secret", name := some "c", «namespace» := none },
    { kind := some "Deployment", name := some "d", «namespace» := none },
    { kind := some "ConfigMap", name := some "e", «namespace» := some "ns" } ]

/-- The final driver state of running `cfgW` over `docsW`. -/
def stateW : DriverState :=
  { idx := 5,
    packages :=
      [ ("cm",
          { name := "cm",
            resources :=
              [ { index := 0, name := "a", kind := "ConfigMap", «namespace» := none,
                  filename := some "cm-0", path := some "cm" },
                { index := 4, name := "e", kind := "ConfigMap", «namespace» := some "ns",
                  filename := some "cm-4", path := some "cm" } ] }),
        ("main",
          { name := "main",
            resources :=
              [ { index := 3, name := "d", kind := "Deployment", «namespace» := none,
                  filename := some "main-3", path := some "main" } ] }) ] }

/-- A mid-run driver state with one existing package entry. -/
def s6 : DriverState :=
  { idx := 3, packages := [("cm", { name := "cm", resources := [resCM] })] }

/-- A ConfigMap document processed from state `s6`. -/
def d6 : ManifestView := { kind := some "ConfigMap", name := some "z", «namespace» := none }

/-- The state after processing `d6` from `s6` under `cfgW`. -/
def s6' : DriverState :=
  { idx := 4,
    packages :=
      [ ("cm",
          { name := "cm",
            resources :=
              [ resCM,
                { index := 3, name := "z", kind := "ConfigMap", «namespace» := none,
                  filename := some "cm-3", path := some "cm" } ] }) ] }

/-- The "cm" package of `stateW`. -/
def pkgCm : Package :=
  { name := "cm",
    resources :=
      [ { index := 0, name := "a", kind := "ConfigMap", «namespace» := none,
          filename := some "cm-0", path := some "cm" },
        { index := 4, name := "e", kind := "ConfigMap", «namespace» := some "ns",
          filename := some "cm-4", path := some "cm" } ] }

/-- The "cm" package of `s6'`. -/
def pkg6 : Package :=
  { name := "cm",
    resources :=
      [ resCM,
        { index := 3, name := "z", kind := "ConfigMap", «namespace» := none,
          filename := some "cm-3", path := some "cm" } ] }

/-! ### Basic lemmas about the accumulator model -/

theorem lookupAssoc_upsert (ps : List (String × Package)) (n : String) (pkg : Package)
    (q : String) :
    lookupAssoc (upsertPkg ps n pkg) q = if n = q then some pkg else lookupAssoc ps q := by
  induction ps with
  | nil => simp [upsertPkg, lookupAssoc]
  | cons hd tl ih =>
    obtain ⟨k, v⟩ := hd
    by_cases hkn : k = n
    · subst hkn
      simp only [upsertPkg, if_pos rfl, lookupAssoc]
      by_cases hkq : k = q
      · subst hkq; simp
      · simp [hkq]
    · simp only [upsertPkg, if_neg hkn, lookupAssoc]
      by_cases hkq : k = q
      · subst hkq
        have : ¬ n = k := fun h => hkn h.symm
        simp [this]
      · simp [hkq, ih]

theorem lookupAssoc_goodNames {ps : List (String × Package)} {q : String} {pkg : Package}
    (hg : goodNames ps) (h : lookupAssoc ps q = some pkg) : pkg.name = q := by
  induction ps with
  | nil => simp [lookupAssoc] at h
  | cons hd tl ih =>
    obtain ⟨k, v⟩ := hd
    simp only [lookupAssoc] at h
    by_cases hkq : k = q
    · subst hkq
      rw [if_pos rfl] at h
      obtain rfl := Option.some.inj h
      exact hg (k, v) (by simp)
    · rw [if_neg hkq] at h
      exact ih (fun p hp => hg p (List.mem_cons_of_mem _ hp)) h

theorem goodNames_upsert {ps : List (String × Package)} {n : String} {pkg : Package}
    (hg : goodNames ps) (hpkg : pkg.name = n) : goodNames (upsertPkg ps n pkg) := by
  induction ps with
  | nil =>
    intro p hp
    simp only [upsertPkg, List.mem_singleton] at hp
    subst hp; exact hpkg
  | cons hd tl ih =>
    obtain ⟨k, v⟩ := hd
    by_cases hkn : k = n
    · subst hkn
      simp only [upsertPkg, if_pos rfl]
      intro p hp
      rcases List.mem_cons.mp hp with h | h
      · subst h; exact hpkg
      · exact hg p (List.mem_cons_of_mem _ h)
    · simp only [upsertPkg, if_neg hkn]
      intro p hp
      rcases List.mem_cons.mp hp with h | h
      · subst h; exact hg (k, v) (by simp)
      · exact ih (fun p hp => hg p (List.mem_cons_of_mem _ hp)) p h

theorem combinePkg_nil (q : String) (o : Option Package) : combinePkg q o [] = o := by
  cases o with
  | none => rfl
  | some pkg => cases pkg; simp [combinePkg]

theorem combinePkg_append (q : String) (o : Option Package) (rs1 rs2 : List Resource) :
    combinePkg q (combinePkg q o rs1) rs2 = combinePkg q o (rs1 ++ rs2) := by
  cases o with
  | none =>
    cases rs1 with
    | nil => simp [combinePkg_nil, combinePkg]
    | cons r rs =>
      cases rs2 with
      | nil => simp [combinePkg_nil, combinePkg]
      | cons r2 rs2' => simp [combinePkg]
  | some pkg =>
    cases rs2 with
    | nil => simp [combinePkg_nil, combinePkg]
    | cons r2 rs2' => simp [combinePkg]

/-! ### Lemmas about `Resource.from_manifest` -/

theorem from_manifest_built {m : ManifestView} {idx : Nat} {r : Resource}
    (h : Resource.from_manifest m idx = .built r) :
    r.index = idx ∧ r.filename = none ∧ r.path = none ∧
      m.kind = some r.kind ∧ m.name = some r.name ∧ m.«namespace» = r.«namespace» := by
  unfold Resource.from_manifest at h
  cases hk : m.kind with
  | none => rw [hk] at h; exact absurd h (by simp)
  | some k =>
    rw [hk] at h
    cases hn : m.name with
    | none => rw [hn] at h; exact absurd h (by simp)
    | some n =>
      rw [hn] at h
      simp only [FromManifestResult.built.injEq] at h
      subst h
      simp

/-! ### The effect of one loop iteration on the accumulator -/

theorem processDoc_idx {c : Config} {rf rp : String → Resource → String}
    {s : DriverState} {d : ManifestView} {s1 : DriverState}
    (h : processDoc c rf rp s d = some s1) : s1.idx = (s.idx + 1) % U32 := by
  unfold processDoc at h
  cases hfm : Resource.from_manifest d s.idx with
  | panicked => rw [hfm] at h; exact absurd h (by simp)
  | skipped => rw [hfm] at h; obtain rfl := Option.some.inj h; rfl
  | built r =>
    rw [hfm] at h
    cases hcl : c.classify r with
    | none =>
      simp only [hcl] at h
      obtain rfl := Option.some.inj h; rfl
    | some pname =>
      simp only [hcl] at h
      obtain rfl := Option.some.inj h; rfl

theorem processDoc_lookup {c : Config} {rf rp : String → Resource → String}
    {s : DriverState} {d : ManifestView} {s1 : DriverState}
    (hg : goodNames s.packages)
    (h : processDoc c rf rp s d = some s1) (q : String) :
    lookupAssoc s1.packages q =
      combinePkg q (lookupAssoc s.packages q) (expectedResources c rf rp q [d] s.idx) := by
  unfold processDoc at h
  cases hfm : Resource.from_manifest d s.idx with
  | panicked => rw [hfm] at h; exact absurd h (by simp)
  | skipped =>
    rw [hfm] at h
    obtain rfl := Option.some.inj h
    simp only [expectedResources, hfm]
    rw [combinePkg_nil]
  | built r =>
    rw [hfm] at h
    cases hcl : c.classify r with
    | none =>
      simp only [hcl] at h
      obtain rfl := Option.some.inj h
      simp only [expectedResources, hfm, hcl]
      rw [if_neg (by simp), combinePkg_nil]
    | some pname =>
      simp only [hcl] at h
      obtain rfl := Option.some.inj h
      simp only [expectedResources, hfm, hcl]
      rw [lookupAssoc_upsert]
      by_cases hpq : pname = q
      · subst hpq
        rw [if_pos rfl, if_pos rfl]
        cases hlook : lookupAssoc s.packages pname with
        | none => simp [hlook, combinePkg]
        | some pkg =>
          have hname : pkg.name = pname := lookupAssoc_goodNames hg hlook
          simp [hlook, combinePkg, hname]
      · rw [if_neg hpq]
        have : ¬ (some pname = some q) := by simp [hpq]
        rw [if_neg this]
        rw [combinePkg_nil]

theorem processDoc_goodNames {c : Config} {rf rp : String → Resource → String}
    {s : DriverState} {d : ManifestView} {s1 : DriverState}
    (hg : goodNames s.packages)
    (h : processDoc c rf rp s d = some s1) : goodNames s1.packages := by
  unfold processDoc at h
  cases hfm : Resource.from_manifest d s.idx with
  | panicked => rw [hfm] at h; exact absurd h (by simp)
  | skipped => rw [hfm] at h; obtain rfl := Option.some.inj h; exact hg
  | built r =>
    rw [hfm] at h
    cases hcl : c.classify r with
    | none =>
      simp only [hcl] at h
      obtain rfl := Option.some.inj h; exact hg
    | some pname =>
      simp only [hcl] at h
      obtain rfl := Option.some.inj h
      apply goodNames_upsert hg
      cases hlook : lookupAssoc s.packages pname with
      | none => simp [hlook]
      | some pkg =>
        have hname : pkg.name = pname := lookupAssoc_goodNames hg hlook
        simp [hlook, hname]

/-! ### The effect of the whole loop on the accumulator -/

theorem expected_cons (c : Config) (rf rp : String → Resource → String) (q : String)
    (d : ManifestView) (ds : List ManifestView) (i : Nat) :
    expectedResources c rf rp q (d :: ds) i =
      expectedResources c rf rp q [d] i ++ expectedResources c rf rp q ds (i + 1) := by
  cases hfm : Resource.from_manifest d i with
  | panicked => simp [expectedResources, hfm]
  | skipped => simp [expectedResources, hfm]
  | built r =>
    by_cases hcl : c.classify r = some q
    · simp [expectedResources, hfm, hcl]
    · simp [expectedResources, hfm, hcl]

theorem processDocs_goodNames {c : Config} {rf rp : String → Resource → String} :
    ∀ (docs : List ManifestView) (s s' : DriverState), goodNames s.packages →
      processDocs c rf rp s docs = some s' → goodNames s'.packages := by
  intro docs
  induction docs with
  | nil =>
    intro s s' hg h
    obtain rfl := Option.some.inj h
    exact hg
  | cons d ds ih =>
    intro s s' hg h
    unfold processDocs at h
    cases h1 : processDoc c rf rp s d with
    | none => rw [h1] at h; exact absurd h (by simp)
    | some s1 =>
      rw [h1] at h
      exact ih s1 s' (processDoc_goodNames hg h1) h

theorem processDocs_lookup {c : Config} {rf rp : String → Resource → String} :
    ∀ (docs : List ManifestView) (s s' : DriverState), goodNames s.packages →
      processDocs c rf rp s docs = some s' → s.idx + docs.length ≤ U32 →
      ∀ q, lookupAssoc s'.packages q =
        combinePkg q (lookupAssoc s.packages q) (expectedResources c rf rp q docs s.idx) := by
  intro docs
  induction docs with
  | nil =>
    intro s s' _ h _ q
    obtain rfl := Option.some.inj h
    simp only [expectedResources]
    rw [combinePkg_nil]
  | cons d ds ih =>
    intro s s' hg h hlen q
    unfold processDocs at h
    cases h1 : processDoc c rf rp s d with
    | none => rw [h1] at h; exact absurd h (by simp)
    | some s1 =>
      rw [h1] at h
      have hg1 := processDoc_goodNames hg h1
      have hidx := processDoc_idx h1
      have hstep := processDoc_lookup hg h1 q
      by_cases hds : ds = []
      · subst hds
        obtain rfl := Option.some.inj h
        rw [expected_cons]
        simp only [expectedResources, List.append_nil]
        exact hstep
      · have hpos : 0 < ds.length := List.length_pos.mpr hds
        have hlen' : s.idx + (ds.length + 1) ≤ U32 := by
          simpa [List.length_cons] using hlen
        have hlt : s.idx + 1 < U32 := by omega
        have hidx' : s1.idx = s.idx + 1 := by rw [hidx, Nat.mod_eq_of_lt hlt]
        have hrest := ih s1 s' hg1 h (by omega) q
        rw [hrest, hidx', hstep, combinePkg_append, ← expected_cons]

/-- Characterization of a full run from the initial state: the final
accumulator entry for each package name `q` is exactly the in-order list
of resources classified into `q`, created only when that list is
nonempty. -/
theorem run_lookup {c : Config} {rf rp : String → Resource → String}
    {docs : List ManifestView} {s' : DriverState}
    (h : processDocs c rf rp initState docs = some s') (hlen : docs.length ≤ U32)
    (q : String) :
    lookupAssoc s'.packages q = combinePkg q none (expectedResources c rf rp q docs 0) := by
  have := processDocs_lookup docs initState s' (by intro p hp; simp [initState] at hp) h
    (by simpa [initState] using hlen) q
  simpa [initState, lookupAssoc] using this

/-! ### First-match characterization of `List.find?` -/

theorem find_first_aux {α : Type} (p : α → Bool) :
    ∀ (l : List α) (i : Nat) (hi : i < l.length), p (l.get ⟨i, hi⟩) = true →
      (∀ j (hj : j < i), p (l.get ⟨j, Nat.lt_trans hj hi⟩) = false) →
      l.find? p = some (l.get ⟨i, hi⟩) := by
  intro l
  induction l with
  | nil => intro i hi; exact absurd hi (by simp)
  | cons a l ih =>
    intro i hi hp hfirst
    cases i with
    | zero => exact List.find?_cons_of_pos _ hp
    | succ i' =>
      have h0 : p a = false := hfirst 0 (Nat.succ_pos i')
      rw [List.find?_cons_of_neg _ (by simp [h0])]
      exact ih i' (Nat.lt_of_succ_lt_succ hi) hp
        (fun j hj => hfirst (j + 1) (Nat.succ_lt_succ hj))

/-! ### Anatomy of the expected resource lists -/

theorem stripRendered_set (r : Resource) (f p : String) (hf : r.filename = none)
    (hp : r.path = none) :
    stripRendered { r with filename := some f, path := some p } = r := by
  cases r
  simp_all [stripRendered]

theorem expected_mem {c : Config} {rf rp : String → Resource → String} {q : String} :
    ∀ {docs : List ManifestView} {i : Nat} {r : Resource},
      r ∈ expectedResources c rf rp q docs i →
      ∃ j, ∃ hj : j < docs.length,
        r.index = i + j ∧
        Resource.from_manifest (docs.get ⟨j, hj⟩) (i + j) = .built (stripRendered r) ∧
        c.classify (stripRendered r) = some q ∧
        r = { stripRendered r with
              filename := some (rf q (stripRendered r)),
              path := some (rp q (stripRendered r)) } := by
  intro docs
  induction docs with
  | nil => intro i r h; simp [expectedResources] at h
  | cons d ds ih =>
    intro i r h
    rw [expected_cons] at h
    rcases List.mem_append.mp h with hl | hr
    · simp only [expectedResources] at hl
      cases hfm : Resource.from_manifest d i with
      | skipped => simp only [hfm] at hl; simp at hl
      | panicked => simp only [hfm] at hl; simp at hl
      | built r0 =>
        simp only [hfm] at hl
        by_cases hcl : c.classify r0 = some q
        · rw [if_pos hcl] at hl
          obtain rfl : r = { r0 with filename := some (rf q r0), path := some (rp q r0) } := by
            simpa using hl
          obtain ⟨hidx0, hf0, hp0, -⟩ := from_manifest_built hfm
          have hstrip :
              stripRendered { r0 with filename := some (rf q r0), path := some (rp q r0) } =
                r0 := stripRendered_set r0 _ _ hf0 hp0
          refine ⟨0, by simp, ?_, ?_, ?_, ?_⟩
          · simpa using hidx0
          · simpa [hstrip] using hfm
          · rw [hstrip]; exact hcl
          · rw [hstrip]
        · rw [if_neg hcl] at hl
          simp at hl
    · obtain ⟨j, hj, hidx, hfm', hcl', hr'⟩ := ih hr
      refine ⟨j + 1, Nat.succ_lt_succ hj, ?_, ?_, hcl', hr'⟩
      · omega
      · have hji : i + (j + 1) = i + 1 + j := by omega
        rw [hji]
        exact hfm'

theorem expected_pairwise (c : Config) (rf rp : String → Resource → String) (q : String) :
    ∀ (docs : List ManifestView) (i : Nat),
      (expectedResources c rf rp q docs i).Pairwise (fun a b => a.index < b.index) := by
  intro docs
  induction docs with
  | nil => intro i; simp [expectedResources]
  | cons d ds ih =>
    intro i
    cases hfm : Resource.from_manifest d i with
    | skipped => simp only [expectedResources, hfm]; exact ih (i + 1)
    | panicked => simp only [expectedResources, hfm]; exact ih (i + 1)
    | built r0 =>
      by_cases hcl : c.classify r0 = some q
      · simp only [expectedResources, hfm, if_pos hcl]
        refine List.Pairwise.cons ?_ (ih (i + 1))
        intro b hb
        obtain ⟨j, hj, hidx, -⟩ := expected_mem hb
        obtain ⟨hidx0, -⟩ := from_manifest_built hfm
        simp only [hidx0]
        omega
      · simp only [expectedResources, hfm, if_neg hcl]
        exact ih (i + 1)

/-- Each entry of the final accumulator is named by its key and holds
exactly the expected in-order resource list. -/
theorem run_entry_eq {c : Config} {rf rp : String → Resource → String}
    {docs : List ManifestView} {s' : DriverState}
    (h : processDocs c rf rp initState docs = some s') (hlen : docs.length ≤ U32)
    {q : String} {pkg : Package} (hq : lookupAssoc s'.packages q = some pkg) :
    pkg.name = q ∧ pkg.resources = expectedResources c rf rp q docs 0 := by
  have hchar := run_lookup h hlen q
  rw [hq] at hchar
  cases hrs : expectedResources c rf rp q docs 0 with
  | nil =>
    rw [hrs, combinePkg_nil] at hchar
    exact absurd hchar (by simp)
  | cons r rs =>
    rw [hrs] at hchar
    simp only [combinePkg, Option.some.injEq] at hchar
    rw [hchar]
    exact ⟨rfl, rfl⟩

/-! ### Claim theorems -/

/-- C1: for every resource and every ordered rule list, `classify`
returns the `packageName` of the first rule whose matcher matches the
resource (which is `none` — the resource is dropped, later rules are not
consulted — when that rule has no `packageName`), and returns the
default package name when no rule matches. -/
theorem classify_first_match_wins (c : Config) (r : Resource) :
    (∀ i (hi : i < c.SplitRules.length),
        (c.SplitRules.get ⟨i, hi⟩).matcher.do_match r = true →
        (∀ j (hj : j < i),
            (c.SplitRules.get ⟨j, Nat.lt_trans hj hi⟩).matcher.do_match r = false) →
        c.classify r = (c.SplitRules.get ⟨i, hi⟩).packageName) ∧
    ((∀ j (hj : j < c.SplitRules.length),
        (c.SplitRules.get ⟨j, hj⟩).matcher.do_match r = false) →
      c.classify r = some c.DefaultPackageSpec.defaultName) := by
  constructor
  · intro i hi hp hfirst
    unfold Config.classify
    rw [find_first_aux _ _ i hi hp hfirst]
  · intro hnone
    unfold Config.classify
    have hfind : c.SplitRules.find? (fun rule => rule.matcher.do_match r) = none := by
      rw [List.find?_eq_none]
      intro x hx
      obtain ⟨⟨j, hj⟩, rfl⟩ := List.mem_iff_get.mp hx
      simpa using hnone j hj
    rw [hfind]

/-- Witness for C1: under `cfgDrop`, the ConfigMap resource matches the
first rule, which has no `packageName`, so it is dropped even though the
second rule would assign it to "p2". -/
theorem classify_first_match_wins_witness : Config.classify cfgDrop resCM = none :=
  (classify_first_match_wins cfgDrop resCM).1 0 (by decide) (by decide)
    (fun j hj => absurd hj (Nat.not_lt_zero j))

/-- C2: the matcher matches iff every set field among kind, name,
namespace compares equal case-insensitively with the resource's field;
an unset field imposes no constraint, and a set namespace requires the
resource's namespace to be present and equal. -/
theorem do_match_iff (m : Matcher) (r : Resource) :
    m.do_match r = true ↔
      ((∀ k, m.kind = some k → lowercase k = lowercase r.kind) ∧
       (∀ n, m.name = some n → lowercase n = lowercase r.name) ∧
       (∀ ns, m.«namespace» = some ns →
          ∃ rns, r.«namespace» = some rns ∧ lowercase ns = lowercase rns)) := by
  obtain ⟨mk, mn, mns⟩ := m
  unfold Matcher.do_match
  cases mk <;> cases mn <;> cases mns <;> cases hrn : r.«namespace» <;> simp_all

/-- C8: `classify` is a pure function of the rule list and the
resource's kind, name and namespace fields: two resources agreeing on
those three fields classify identically under the same configuration
(and the embedding is a pure function, mutating nothing). -/
theorem classify_deterministic (c : Config) (r1 r2 : Resource)
    (hk : r1.kind = r2.kind) (hn : r1.name = r2.name)
    (hns : r1.«namespace» = r2.«namespace») :
    c.classify r1 = c.classify r2 := by
  unfold Config.classify
  have hfun : (fun rule : SplitRule => rule.matcher.do_match r1) =
      (fun rule : SplitRule => rule.matcher.do_match r2) := by
    funext rule
    unfold Matcher.do_match
    rw [hk, hn, hns]
  rw [hfun]

/-- Witness for C8: two ConfigMap resources differing only in index and
rendered fields classify identically. -/
theorem classify_deterministic_witness :
    Config.classify cfgW resCM1 = Config.classify cfgW resCM2 :=
  classify_deterministic cfgW resCM1 resCM2 rfl rfl rfl

/-- C9: a document whose `kind` reads as a string but whose
`metadata.name` does not panics in `Resource::from_manifest` (the
`unwrap` aborts the run), whereas a document without a string `kind` is
merely skipped. -/
theorem from_manifest_name_unwrap_panics (m : ManifestView) (idx : Nat) (k : String)
    (hk : m.kind = some k) (hn : m.name = none) :
    Resource.from_manifest m idx = .panicked ∧
    ∀ (m2 : ManifestView) (idx2 : Nat), m2.kind = none →
      Resource.from_manifest m2 idx2 = .skipped := by
  constructor
  · unfold Resource.from_manifest
    rw [hk, hn]
  · intro m2 idx2 h2
    unfold Resource.from_manifest
    rw [h2]

/-- Witness for C9: a document with `kind` "ConfigMap" and no string
`metadata.name` panics. -/
theorem from_manifest_name_unwrap_panics_witness :
    Resource.from_manifest
      { kind := some "ConfigMap", name := none, «namespace» := none } 0 = .panicked :=
  (from_manifest_name_unwrap_panics
    { kind := some "ConfigMap", name := none, «namespace» := none } 0 "ConfigMap"
    rfl rfl).1

/-- C4: the zero-pad helper renders 7 as "007" and 123 as "123", and
fails with the "expect number" type error on every non-numeric value. -/
theorem pad3_renders_and_rejects :
    pad3Filter (.num (.posInt 7)) = .ok (.str "007") ∧
    pad3Filter (.num (.posInt 123)) = .ok (.str "123") ∧
    ∀ v : JValue, v.isNumber = false → pad3Filter v = .error "expect number" := by
  refine ⟨rfl, rfl, ?_⟩
  intro v hv
  cases v <;> first
    | rfl
    | simp [JValue.isNumber] at hv

/-- Witness for C4: the helper rejects a string value. -/
theorem pad3_renders_and_rejects_witness :
    JValue.isNumber (.str "x") = false ∧
    pad3Filter (.str "x") = .error "expect number" :=
  ⟨rfl, pad3_renders_and_rejects.2.2 (.str "x") rfl⟩

/-- C10 (counterexample): the float-stored number 3 has a mathematical
value representable as an unsigned 64-bit integer, yet the helper fails
on it with "expect number" — so the helper does not succeed on every
numeric value representable as a u64. -/
theorem pad3_float_counterexample :
    JNum.representableU64 (JNum.float 3) ∧
    pad3Filter (.num (.float 3)) = .error "expect number" := by
  refine ⟨⟨3, by norm_num, ?_⟩, rfl⟩
  norm_num [JNum.val]

/-- C10 (amended): the zero-pad helper succeeds exactly on numbers
stored in the unsigned-integer representation (those on which `as_u64`
succeeds); every other numeric input — negative integers and all
float-stored values, fractional or not — fails with "expect number". -/
theorem pad3_posInt_only (n : JNum) :
    ((∃ s, pad3Filter (.num n) = .ok (.str s)) ↔ (∃ m, n = .posInt m)) ∧
    ((∀ m, n ≠ .posInt m) → pad3Filter (.num n) = .error "expect number") := by
  cases n with
  | posInt m =>
    exact ⟨⟨fun _ => ⟨m, rfl⟩, fun _ => ⟨format3 m, rfl⟩⟩, fun h => absurd rfl (h m)⟩
  | negInt i =>
    refine ⟨⟨?_, ?_⟩, fun _ => rfl⟩
    · rintro ⟨s, hs⟩
      exact absurd hs (by simp [pad3Filter, JNum.as_u64])
    · rintro ⟨m, hm⟩
      exact absurd hm (by simp)
  | float q =>
    refine ⟨⟨?_, ?_⟩, fun _ => rfl⟩
    · rintro ⟨s, hs⟩
      exact absurd hs (by simp [pad3Filter, JNum.as_u64])
    · rintro ⟨m, hm⟩
      exact absurd hm (by simp)

/-- Witness for C10: the negative integer -1 is not `posInt` and the
helper fails on it. -/
theorem pad3_posInt_only_witness :
    (∀ m, JNum.negInt (-1) ≠ JNum.posInt m) ∧
    pad3Filter (.num (.negInt (-1))) = .error "expect number" :=
  ⟨fun _ h => JNum.noConfusion h,
   (pad3_posInt_only (JNum.negInt (-1))).2 (fun _ h => JNum.noConfusion h)⟩

/-- C7: every package of a completed run lists its resources exactly in
manifest document order restricted to the documents classified into
that package (skipped and dropped documents removed, no reordering):
the resource list equals the in-order reference list
`expectedResources`. -/
theorem package_order (c : Config) (rf rp : String → Resource → String)
    (docs : List ManifestView) (s' : DriverState)
    (h : processDocs c rf rp initState docs = some s') (hlen : docs.length ≤ U32)
    (q : String) (pkg : Package) (hq : lookupAssoc s'.packages q = some pkg) :
    pkg.name = q ∧ pkg.resources = expectedResources c rf rp q docs 0 :=
  run_entry_eq h hlen hq

/-- Witness for C7: the run of `cfgW` over `docsW` ends in `stateW`,
whose "cm" package is exactly the expected list. -/
theorem package_order_witness :
    processDocs cfgW rfW rpW initState docsW = some stateW ∧
    docsW.length ≤ U32 ∧
    lookupAssoc stateW.packages "cm" = some pkgCm ∧
    (pkgCm.name = "cm" ∧ pkgCm.resources = expectedResources cfgW rfW rpW "cm" docsW 0) :=
  ⟨by decide, by decide, by decide,
   package_order cfgW rfW rpW docsW stateW (by decide) (by decide) "cm" pkgCm (by decide)⟩

/-- C5: after any run of the per-document loop, a package entry exists
in the accumulator iff at least one resource was assigned to that
package name, and no entry ever holds an empty resource list — entries
are created lazily at the first assignment. -/
theorem package_created_lazily (c : Config) (rf rp : String → Resource → String)
    (docs : List ManifestView) (s' : DriverState)
    (h : processDocs c rf rp initState docs = some s') (hlen : docs.length ≤ U32)
    (q : String) :
    ((lookupAssoc s'.packages q).isSome ↔ expectedResources c rf rp q docs 0 ≠ []) ∧
    (∀ pkg, lookupAssoc s'.packages q = some pkg → pkg.resources ≠ []) := by
  have hchar := run_lookup h hlen q
  cases hrs : expectedResources c rf rp q docs 0 with
  | nil =>
    rw [hrs, combinePkg_nil] at hchar
    rw [hchar]
    exact ⟨by simp, fun pkg hpkg => absurd hpkg (by simp)⟩
  | cons r rs =>
    rw [hrs] at hchar
    simp only [combinePkg] at hchar
    rw [hchar]
    refine ⟨by simp, fun pkg hpkg => ?_⟩
    obtain rfl := Option.some.inj hpkg
    simp

/-- Witness for C5: in the `cfgW` run over `docsW`, the "cm" entry
exists with a nonempty list exactly because resources were assigned to
"cm". -/
theorem package_created_lazily_witness :
    processDocs cfgW rfW rpW initState docsW = some stateW ∧
    docsW.length ≤ U32 ∧
    (((lookupAssoc stateW.packages "cm").isSome ↔
        expectedResources cfgW rfW rpW "cm" docsW 0 ≠ []) ∧
      ∀ pkg, lookupAssoc stateW.packages "cm" = some pkg → pkg.resources ≠ []) :=
  ⟨by decide, by decide,
   package_created_lazily cfgW rfW rpW docsW stateW (by decide) (by decide) "cm"⟩

/-- C3: in any completed run, every resource stored in a package
carries the zero-based position of the document it was built from (the
counter advances by exactly one per input document, also across skipped
and dropped documents), indices within a package strictly increase, and
an index value occurs in at most one package, at most once. -/
theorem resource_indices_monotone (c : Config) (rf rp : String → Resource → String)
    (docs : List ManifestView) (s' : DriverState)
    (h : processDocs c rf rp initState docs = some s') (hlen : docs.length ≤ U32)
    (q : String) (pkg : Package) (hq : lookupAssoc s'.packages q = some pkg) :
    (∀ r ∈ pkg.resources, ∃ hr : r.index < docs.length,
        Resource.from_manifest (docs.get ⟨r.index, hr⟩) r.index = .built (stripRendered r)) ∧
    pkg.resources.Pairwise (fun a b => a.index < b.index) ∧
    (∀ q2 pkg2, lookupAssoc s'.packages q2 = some pkg2 →
      ∀ r ∈ pkg.resources, ∀ r2 ∈ pkg2.resources, r.index = r2.index → q = q2 ∧ r = r2) := by
  obtain ⟨-, hres⟩ := run_entry_eq h hlen hq
  refine ⟨?_, ?_, ?_⟩
  · intro r hr
    rw [hres] at hr
    obtain ⟨j, hj, hidx, hfm, -, -⟩ := expected_mem hr
    rw [Nat.zero_add] at hidx
    subst hidx
    rw [Nat.zero_add] at hfm
    exact ⟨hj, hfm⟩
  · rw [hres]
    exact expected_pairwise c rf rp q docs 0
  · intro q2 pkg2 hq2 r hr r2 hr2 hidx
    obtain ⟨-, hres2⟩ := run_entry_eq h hlen hq2
    rw [hres] at hr
    rw [hres2] at hr2
    obtain ⟨j, hj, hj1, hfm1, hcl1, hrend1⟩ := expected_mem hr
    obtain ⟨j2, hj2, hj21, hfm2, hcl2, hrend2⟩ := expected_mem hr2
    rw [Nat.zero_add] at hj1 hj21
    have hjj : j = j2 := by omega
    subst hjj
    subst hj1
    have heq := hfm1.symm.trans hfm2
    have hstrip : stripRendered r = stripRendered r2 :=
      FromManifestResult.built.inj heq
    rw [hstrip] at hcl1
    rw [hcl1] at hcl2
    obtain rfl := Option.some.inj hcl2
    refine ⟨rfl, ?_⟩
    have hmid :
        ({ stripRendered r with
            filename := some (rf q (stripRendered r)),
            path := some (rp q (stripRendered r)) } : Resource) =
          { stripRendered r2 with
            filename := some (rf q (stripRendered r2)),
            path := some (rp q (stripRendered r2)) } := by
      rw [hstrip]
    exact hrend1.trans (hmid.trans hrend2.symm)

/-- Witness for C3: in the `cfgW` run over `docsW` (five documents, the
second lacking a string `kind`), the "cm" package holds indices 0 and 4,
each matching its document position. -/
theorem resource_indices_monotone_witness :
    processDocs cfgW rfW rpW initState docsW = some stateW ∧
    docsW.length ≤ U32 ∧
    ((∀ r ∈ pkgCm.resources, ∃ hr : r.index < docsW.length,
        Resource.from_manifest (docsW.get ⟨r.index, hr⟩) r.index = .built (stripRendered r)) ∧
      pkgCm.resources.Pairwise (fun a b => a.index < b.index) ∧
      (∀ q2 pkg2, lookupAssoc stateW.packages q2 = some pkg2 →
        ∀ r ∈ pkgCm.resources, ∀ r2 ∈ pkg2.resources, r.index = r2.index →
          "cm" = q2 ∧ r = r2)) :=
  ⟨by decide, by decide,
   resource_indices_monotone cfgW rfW rpW docsW stateW (by decide) (by decide) "cm" pkgCm
     (by decide)⟩

/-- C6: one loop iteration never mutates a resource already stored in a
package — every existing entry keeps its name and its resource list as
an unchanged front segment — and any resource it appends was built with
`filename` and `path` equal to `None` and enters with exactly those two
fields set, once, to the rendered values. -/
theorem resource_rendered_once (c : Config) (rf rp : String → Resource → String)
    (s : DriverState) (d : ManifestView) (s1 : DriverState)
    (hg : goodNames s.packages) (h : processDoc c rf rp s d = some s1)
    (q : String) (pkg1 : Package) (hl : lookupAssoc s1.packages q = some pkg1) :
    ∃ t : List Resource,
      (∀ pkg0, lookupAssoc s.packages q = some pkg0 →
          pkg1.name = pkg0.name ∧ pkg1.resources = pkg0.resources ++ t) ∧
      (lookupAssoc s.packages q = none → pkg1.name = q ∧ pkg1.resources = t) ∧
      ∀ r ∈ t, ∃ core,
        Resource.from_manifest d s.idx = .built core ∧
        core.filename = none ∧ core.path = none ∧
        c.classify core = some q ∧
        r = { core with filename := some (rf q core), path := some (rp q core) } := by
  have hstep := processDoc_lookup hg h q
  rw [hl] at hstep
  refine ⟨expectedResources c rf rp q [d] s.idx, ?_, ?_, ?_⟩
  · intro pkg0 h0
    rw [h0] at hstep
    simp only [combinePkg] at hstep
    obtain rfl := Option.some.inj hstep
    exact ⟨rfl, rfl⟩
  · intro h0
    rw [h0] at hstep
    cases ht : expectedResources c rf rp q [d] s.idx with
    | nil =>
      rw [ht, combinePkg_nil] at hstep
      exact absurd hstep (by simp)
    | cons r rs =>
      rw [ht] at hstep
      simp only [combinePkg] at hstep
      obtain rfl := Option.some.inj hstep
      exact ⟨rfl, rfl⟩
  · intro r hr
    obtain ⟨j, hj, hidx, hfm, hcl, hrend⟩ := expected_mem hr
    have hj0 : j = 0 := by simpa using hj
    subst hj0
    rw [Nat.add_zero] at hfm
    refine ⟨stripRendered r, ?_, rfl, rfl, hcl, hrend⟩
    simpa using hfm

/-- Witness for C6: processing the ConfigMap document `d6` from state
`s6` leaves the existing "cm" resource untouched and appends one newly
rendered resource. -/
theorem resource_rendered_once_witness :
    goodNames s6.packages ∧
    processDoc cfgW rfW rpW s6 d6 = some s6' ∧
    lookupAssoc s6'.packages "cm" = some pkg6 ∧
    (∃ t : List Resource,
      (∀ pkg0, lookupAssoc s6.packages "cm" = some pkg0 →
          pkg6.name = pkg0.name ∧ pkg6.resources = pkg0.resources ++ t) ∧
      (lookupAssoc s6.packages "cm" = none → pkg6.name = "cm" ∧ pkg6.resources = t) ∧
      ∀ r ∈ t, ∃ core,
        Resource.from_manifest d6 s6.idx = .built core ∧
        core.filename = none ∧ core.path = none ∧
        cfgW.classify core = some "cm" ∧
        r = { core with filename := some (rfW "cm" core), path := some (rpW "cm" core) }) :=
  ⟨by decide, by decide, by decide,
   resource_rendered_once cfgW rfW rpW s6 d6 s6' (by decide) (by decide) "cm" pkg6
     (by decide)⟩

end KustomizeUpstream
